import Mathlib

/-
  Verification development for the image-metadata synchronization tool
  (src/main.py and src/google_api.py).

  The Python code is shallowly embedded: strings are lists of characters,
  Python dictionaries are association lists, the Google Drive store is a
  list of file records, queries against the store are evaluated as list
  filters, and external effects (filesystem enumeration, metadata
  extraction output, query answers) are supplied by oracle functions.
-/

namespace ImageMetadataSync

/-- Python strings are modelled as lists of characters. -/
abbrev Str := List Char

/-! ## Tag extractor: extract_tags_property (src/main.py, lines 62-77) -/

/-- Python exceptions that the embedded fragment can raise. -/
inductive PyErr
  | keyError
  | indexError
deriving DecidableEq

/-- The metadata key read by the extractor, "IPTC:Keywords". -/
def keywordsField : Str := "IPTC:Keywords".data

/-- Embedding of extract_tags_property.  The exiftool output
(metadata) is a list of per-file dictionaries, each a list of
key/value pairs whose values are tag lists.  The code evaluates
metadata[0]["IPTC:Keywords"]: indexing an empty list raises IndexError
and a missing dictionary key raises KeyError. -/
def extract_tags_property (metadata : List (List (Str × List Str))) :
    Except PyErr (List Str) :=
  match metadata with
  | [] => Except.error PyErr.indexError
  | m :: _ =>
    match List.lookup keywordsField m with
    | none => Except.error PyErr.keyError
    | some tags => Except.ok tags

/-! ## Description builder: create_description_from_tags (src/main.py, lines 126-142) -/

/-- The two-character separator comma-space appended by the f-string
in create_description_from_tags. -/
def sepCS : List Char := [',', ' ']

/-- Embedding of create_description_from_tags: append every tag followed
by a comma and a space to an accumulator, then slice off the last two
characters (Python new_description[:-2]). -/
def create_description_from_tags (tags : List Str) : Str :=
  let new_description : Str :=
    tags.foldl (fun acc tag => acc ++ tag ++ sepCS) []
  new_description.take (new_description.length - 2)

/-- Embedding of the Python string method split(", ") used by the
round-trip property: split a character list on the two-character
separator comma-space, leftmost-first, non-overlapping. -/
def splitCS : List Char → List (List Char)
  | [] => [[]]
  | [c] => [[c]]
  | c :: c2 :: r =>
    if c = ',' ∧ c2 = ' ' then [] :: splitCS r
    else
      match splitCS (c2 :: r) with
      | [] => [[c]]
      | x :: xs => (c :: x) :: xs

/-! ### Basic theorems about the extractor and the builder -/

/-- Claim C7: create_description_from_tags applied to the empty tag
sequence returns the empty string. -/
theorem create_description_empty :
    create_description_from_tags [] = [] := rfl

/-- Counterexample to claim C1: on metadata for one file whose
dictionary lacks the keyword field, extract_tags_property raises
KeyError instead of returning the empty tag sequence. -/
theorem extract_tags_absent_counterexample :
    extract_tags_property [[]] = Except.error PyErr.keyError ∧
      extract_tags_property [[]] ≠ Except.ok [] := by
  constructor
  · rfl
  · simp [extract_tags_property]

/-- Claim C1 (amended): for every image file whose metadata lacks the
keyword/tag field, extract_tags_property raises a KeyError; absence of
the field is surfaced as an exception, not as an empty tag sequence. -/
theorem extract_tags_absent_raises
    (metadata : List (List (Str × List Str))) (m : List (Str × List Str))
    (rest : List (List (Str × List Str)))
    (hmd : metadata = m :: rest)
    (habsent : List.lookup keywordsField m = none) :
    extract_tags_property metadata = Except.error PyErr.keyError := by
  subst hmd
  simp [extract_tags_property, habsent]

/-- Witness for extract_tags_absent_raises at a concrete metadata value. -/
theorem extract_tags_absent_raises_witness :
    extract_tags_property [[(['a'], [['b']])]] = Except.error PyErr.keyError :=
  extract_tags_absent_raises _ [(['a'], [['b']])] [] rfl (by decide)

/-! ### Round-trip properties of the description builder (claim C3) -/

theorem splitCS_ne_nil (l : List Char) : splitCS l ≠ [] := by
  match l with
  | [] => simp [splitCS]
  | [c] => simp [splitCS]
  | c :: c2 :: r =>
    rw [splitCS]
    split
    · simp
    · cases h : splitCS (c2 :: r) <;> simp

theorem foldl_append_sep (T : List Str) (a : Str) :
    T.foldl (fun acc tag => acc ++ tag ++ sepCS) a =
      a ++ (T.map (fun t => t ++ sepCS)).flatten := by
  induction T generalizing a with
  | nil => simp
  | cons t T ih =>
    rw [List.foldl_cons, ih, List.map_cons, List.flatten_cons]
    simp [List.append_assoc]

theorem intercalate_cons_cons (s a b : List Char) (l : List (List Char)) :
    List.intercalate s (a :: b :: l) = a ++ s ++ List.intercalate s (b :: l) := by
  simp [List.intercalate, List.intersperse]

theorem intercalate_single (s a : List Char) : List.intercalate s [a] = a := by
  simp [List.intercalate]

theorem flatten_map_sep (T : List Str) (hne : T ≠ []) :
    (T.map (fun t => t ++ sepCS)).flatten = List.intercalate sepCS T ++ sepCS := by
  induction T with
  | nil => exact absurd rfl hne
  | cons t T ih =>
    cases T with
    | nil => simp [List.intercalate]
    | cons t2 T2 =>
      rw [List.map_cons, List.flatten_cons, ih (by simp), intercalate_cons_cons]
      simp [List.append_assoc]

/-- For a nonempty tag list the builder output is exactly the
intercalation of the tags by the comma-space separator. -/
theorem create_description_eq_intercalate (T : List Str) (hne : T ≠ []) :
    create_description_from_tags T = List.intercalate sepCS T := by
  have key : T.foldl (fun acc tag => acc ++ tag ++ sepCS) [] =
      List.intercalate sepCS T ++ sepCS := by
    rw [foldl_append_sep T [], List.nil_append, flatten_map_sep T hne]
  unfold create_description_from_tags
  simp only [key]
  have h2 : (List.intercalate sepCS T ++ sepCS).length - 2 =
      (List.intercalate sepCS T).length := by
    simp [sepCS]
  rw [h2, List.take_left]

theorem splitCS_no_sep (t : List Char) (h : ¬ sepCS <:+: t) :
    splitCS t = [t] := by
  induction t with
  | nil => simp [splitCS]
  | cons c t2 ih =>
    cases t2 with
    | nil => simp [splitCS]
    | cons c2 t3 =>
      rw [splitCS]
      rw [if_neg]
      · have ht3 : ¬ sepCS <:+: (c2 :: t3) := fun hx => h (List.infix_cons hx)
        rw [ih ht3]
      · rintro ⟨rfl, rfl⟩
        exact h (List.IsPrefix.isInfix ⟨t3, rfl⟩)

theorem splitCS_append_sep (t : List Char) (h : ¬ sepCS <:+: t) (r : List Char) :
    splitCS (t ++ sepCS ++ r) = t :: splitCS r := by
  induction t with
  | nil =>
    show splitCS (',' :: ' ' :: r) = [] :: splitCS r
    rw [splitCS, if_pos ⟨rfl, rfl⟩]
  | cons c t2 ih =>
    cases t2 with
    | nil =>
      show splitCS (c :: ',' :: (' ' :: r)) = [c] :: splitCS r
      rw [splitCS, if_neg (by simp)]
      have : splitCS (',' :: ' ' :: r) = [] :: splitCS r := by
        rw [splitCS, if_pos ⟨rfl, rfl⟩]
      rw [this]
    | cons c2 t3 =>
      have ht2 : ¬ sepCS <:+: (c2 :: t3) := fun hx => h (List.infix_cons hx)
      show splitCS (c :: (c2 :: (t3 ++ sepCS ++ r))) = (c :: c2 :: t3) :: splitCS r
      rw [splitCS]
      rw [if_neg]
      · have := ih ht2
        simp only [List.cons_append] at this ⊢
        rw [this]
      · rintro ⟨rfl, rfl⟩
        exact h (List.IsPrefix.isInfix ⟨t3, rfl⟩)

theorem splitCS_intercalate (T : List Str) (hne : T ≠ [])
    (hsep : ∀ t ∈ T, ¬ sepCS <:+: t) :
    splitCS (List.intercalate sepCS T) = T := by
  induction T with
  | nil => exact absurd rfl hne
  | cons t T ih =>
    cases T with
    | nil =>
      rw [intercalate_single]
      exact splitCS_no_sep t (hsep t (by simp))
    | cons t2 T2 =>
      rw [intercalate_cons_cons, splitCS_append_sep t (hsep t (by simp)) _]
      rw [ih (by simp) (fun x hx => hsep x (by simp [hx]))]

theorem no_lead_aux (c : Char) (u R : List Char)
    (hfirst : ¬ sepCS <:+: (c :: u))
    (hR : R = [] ∨ ∃ X, R = sepCS ++ X) :
    ¬ sepCS <+: ((c :: u) ++ R) := by
  intro hpre
  simp only [sepCS, List.cons_append, List.cons_prefix_cons] at hpre
  obtain ⟨rfl, hpre2⟩ := hpre
  cases u with
  | cons c2 u2 =>
    simp only [List.cons_append, List.cons_prefix_cons] at hpre2
    obtain ⟨rfl, -⟩ := hpre2
    exact hfirst (List.IsPrefix.isInfix ⟨u2, rfl⟩)
  | nil =>
    simp only [List.nil_append] at hpre2
    rcases hR with rfl | ⟨X, rfl⟩
    · simp at hpre2
    · obtain ⟨habs, -⟩ := List.cons_prefix_cons.mp hpre2
      exact absurd habs (by decide)

theorem no_leading_sep (T : List Str) (hsep : ∀ t ∈ T, ¬ sepCS <:+: t)
    (t0 : Str) (T2 : List Str) (hT : T = t0 :: T2) (h0 : t0 ≠ []) :
    ¬ sepCS <+: List.intercalate sepCS T := by
  subst hT
  obtain ⟨c, u, rfl⟩ : ∃ c u, t0 = c :: u := by
    cases t0 with
    | nil => exact absurd rfl h0
    | cons c u => exact ⟨c, u, rfl⟩
  cases T2 with
  | nil =>
    rw [intercalate_single]
    have := no_lead_aux c u [] (hsep _ (by simp)) (Or.inl rfl)
    simpa using this
  | cons t2 T3 =>
    rw [intercalate_cons_cons]
    have := no_lead_aux c u (sepCS ++ List.intercalate sepCS (t2 :: T3))
      (hsep _ (by simp)) (Or.inr ⟨_, rfl⟩)
    simpa [List.append_assoc] using this

theorem intercalate_concat (s : List Char) (T : List (List Char)) (hne : T ≠ [])
    (t : List Char) :
    List.intercalate s (T ++ [t]) = List.intercalate s T ++ s ++ t := by
  induction T with
  | nil => exact absurd rfl hne
  | cons a T ih =>
    cases T with
    | nil =>
      rw [intercalate_single]
      show List.intercalate s (a :: t :: []) = _
      rw [intercalate_cons_cons, intercalate_single]
    | cons b T2 =>
      show List.intercalate s (a :: ((b :: T2) ++ [t])) = _
      have hbt : (b :: T2) ++ [t] = b :: (T2 ++ [t]) := by simp
      rw [hbt, intercalate_cons_cons, ← hbt, ih (by simp),
        intercalate_cons_cons]
      simp [List.append_assoc]

theorem no_trail_aux (tl A : List Char)
    (htl : tl ≠ []) (htlsep : ¬ sepCS <:+: tl) :
    ¬ sepCS <:+ (A ++ sepCS ++ tl) := by
  intro hsuf
  rw [← List.reverse_prefix] at hsuf
  obtain ⟨c, u, hrev⟩ : ∃ c u, tl.reverse = c :: u := by
    cases hr : tl.reverse with
    | nil => exact absurd (by simpa using congrArg List.reverse hr) htl
    | cons c u => exact ⟨c, u, rfl⟩
  rw [List.reverse_append, List.reverse_append, hrev] at hsuf
  simp only [sepCS, List.reverse_cons, List.reverse_nil, List.nil_append,
    List.cons_append, List.cons_prefix_cons] at hsuf
  obtain ⟨rfl, hsuf2⟩ := hsuf
  cases u with
  | cons c2 u2 =>
    simp only [List.cons_append, List.cons_prefix_cons] at hsuf2
    obtain ⟨rfl, -⟩ := hsuf2
    apply htlsep
    have heq : tl = u2.reverse ++ [',', ' '] := by
      have := congrArg List.reverse hrev
      simpa using this
    rw [heq]
    exact List.IsSuffix.isInfix ⟨u2.reverse, rfl⟩
  | nil =>
    simp only [List.nil_append, List.cons_append, List.cons_prefix_cons] at hsuf2
    exact absurd hsuf2.1 (by decide)

theorem no_trailing_sep (T : List Str) (hsep : ∀ t ∈ T, ¬ sepCS <:+: t)
    (hne : T ≠ []) (hlast : T.getLastD [] ≠ []) :
    ¬ sepCS <:+ List.intercalate sepCS T := by
  obtain rfl | ⟨T0, tl, rfl⟩ := T.eq_nil_or_concat
  · exact absurd rfl hne
  simp only [List.concat_eq_append] at hsep hlast ⊢
  have htl : tl ≠ [] := by
    simpa using hlast
  have htlsep : ¬ sepCS <:+: tl := hsep tl (by simp)
  cases T0 with
  | nil =>
    have h1 : List.intercalate sepCS ([] ++ [tl]) = tl := by
      simp [List.intercalate]
    rw [h1]
    exact fun hs => htlsep hs.isInfix
  | cons a T1 =>
    rw [intercalate_concat _ _ (by simp)]
    exact no_trail_aux tl _ htl htlsep

/-- Counterexample to claim C3: on the two-element tag sequence
consisting of two empty tags (no tag contains the separator), the
builder returns the separator itself, which both starts and ends with
the separator. -/
theorem create_description_separator_counterexample :
    create_description_from_tags [[], []] = [',', ' '] ∧
      sepCS <+: create_description_from_tags [[], []] ∧
      sepCS <:+ create_description_from_tags [[], []] ∧
      (∀ t ∈ [([] : Str), []], ¬ sepCS <:+: t) := by
  refine ⟨rfl, ⟨[], rfl⟩, ⟨[], rfl⟩, ?_⟩
  decide

/-- Claim C3 (amended): for every tag sequence T with at least one
element in which no tag contains the comma-space separator, the builder
joins the tags in input order with the separator and splitting the
result on the separator recovers exactly T; moreover the result has no
leading separator provided the first tag is nonempty, and no trailing
separator provided the last tag is nonempty. -/
theorem create_description_round_trip (T : List Str) (hne : T ≠ [])
    (hsep : ∀ t ∈ T, ¬ sepCS <:+: t) :
    create_description_from_tags T = List.intercalate sepCS T ∧
      splitCS (create_description_from_tags T) = T ∧
      (T.getD 0 [] ≠ [] → ¬ sepCS <+: create_description_from_tags T) ∧
      (T.getLastD [] ≠ [] → ¬ sepCS <:+ create_description_from_tags T) := by
  have heq := create_description_eq_intercalate T hne
  refine ⟨heq, ?_, ?_, ?_⟩
  · rw [heq]; exact splitCS_intercalate T hne hsep
  · intro h0
    rw [heq]
    cases T with
    | nil => exact absurd rfl hne
    | cons t0 T2 =>
      exact no_leading_sep _ hsep t0 T2 rfl (by simpa using h0)
  · intro hlast
    rw [heq]
    exact no_trailing_sep T hsep hne hlast

/-- Witness for create_description_round_trip on the tag list a, b. -/
theorem create_description_round_trip_witness :
    create_description_from_tags [['a'], ['b']] =
        List.intercalate sepCS [['a'], ['b']] ∧
      splitCS (create_description_from_tags [['a'], ['b']]) = [['a'], ['b']] ∧
      ¬ sepCS <+: create_description_from_tags [['a'], ['b']] ∧
      ¬ sepCS <:+ create_description_from_tags [['a'], ['b']] := by
  have h := create_description_round_trip [['a'], ['b']] (by decide) (by decide)
  exact ⟨h.1, h.2.1, h.2.2.1 (by decide), h.2.2.2 (by decide)⟩

/-! ## Remote path resolver: search_image_in_drive (src/main.py, lines 80-123) -/

/-- Embedding of the Python string method split used on the local path:
split a character list at every slash. -/
def splitSlash : List Char → List (List Char)
  | [] => [[]]
  | c :: r =>
    if c = '/' then [] :: splitSlash r
    else
      match splitSlash r with
      | [] => [[c]]
      | x :: xs => (c :: x) :: xs

/-- One file record of the Google Drive store: an opaque id, a display
name, a mime type, and the ids of its parent folders. -/
structure DriveFile where
  id : Str
  name : Str
  mimeType : Str
  parents : List Str
deriving DecidableEq

/-- The folder mime type used in the folder query string. -/
def folderMimeType : Str := "application/vnd.google-apps.folder".data

/-- The mime type fragment used in the terminal query string. -/
def imageMimeFragment : Str := "image/".data

/-- Evaluation of the folder query issued for each non-final path
segment: children of the current folder whose name equals the segment
and whose mime type is the folder type. -/
def folder_query (drive : List DriveFile) (parent part : Str) : List DriveFile :=
  drive.filter
    (fun f => decide (parent ∈ f.parents ∧ f.name = part ∧ f.mimeType = folderMimeType))

/-- Evaluation of the terminal query: children of the final folder
whose name contains the file name as a substring and whose mime type
contains the fragment image-slash. -/
def image_query (drive : List DriveFile) (parent imageName : Str) : List DriveFile :=
  drive.filter
    (fun f => decide (parent ∈ f.parents ∧ imageName <:+: f.name ∧
      imageMimeFragment <:+: f.mimeType))

/-- A query issued against the remote store, recorded for counting. -/
inductive Query
  | folder (parent name : Str)
  | terminal (parent name : Str)
deriving DecidableEq

/-- Whether a recorded query is a folder (non-final segment) query. -/
def Query.isFolderQ : Query → Bool
  | .folder _ _ => true
  | .terminal _ _ => false

/-- Whether a recorded query is the terminal image query. -/
def Query.isTerminalQ : Query → Bool
  | .folder _ _ => false
  | .terminal _ _ => true

/-- The folder-chain loop of search_image_in_drive: walk the non-final
path segments from the current folder id, taking the first match of
each folder query, returning none as soon as a query has no match.
The second component records the queries issued, in order. -/
def resolve_folders (drive : List DriveFile) :
    Str → List Str → Option Str × List Query
  | current, [] => (some current, [])
  | current, part :: rest =>
    match folder_query drive current part with
    | [] => (none, [Query.folder current part])
    | f :: _ =>
      let next := resolve_folders drive f.id rest
      (next.1, Query.folder current part :: next.2)

/-- Embedding of search_image_in_drive: split the path on slashes,
resolve all segments but the last as a folder chain, and on success
issue the terminal image query in the last matched folder.  Returns
the matched files and the queries issued. -/
def search_image_in_drive (drive : List DriveFile) (image_path : Str)
    (root_folder_id : Str) : List DriveFile × List Query :=
  let path_parts := splitSlash image_path
  match resolve_folders drive root_folder_id path_parts.dropLast with
  | (none, qs) => ([], qs)
  | (some current, qs) =>
    let image_name := path_parts.getLastD []
    (image_query drive current image_name,
      qs ++ [Query.terminal current image_name])

/-! ### Query-count and fail-fast properties (claim C2) -/

theorem resolve_folders_queries (drive : List DriveFile) (c : Str)
    (l : List Str) :
    (resolve_folders drive c l).2.length ≤ l.length ∧
      ∀ q ∈ (resolve_folders drive c l).2, q.isFolderQ = true := by
  induction l generalizing c with
  | nil => simp [resolve_folders]
  | cons part rest ih =>
    rw [resolve_folders]
    cases hq : folder_query drive c part with
    | nil => simp [Query.isFolderQ]
    | cons f fs =>
      obtain ⟨ih1, ih2⟩ := ih f.id
      refine ⟨by simpa using Nat.succ_le_succ ih1, ?_⟩
      intro q hqmem
      simp only [List.mem_cons] at hqmem
      rcases hqmem with rfl | hqmem
      · rfl
      · exact ih2 q hqmem

theorem resolve_folders_fail_fast (drive : List DriveFile)
    (l : List Str) (c : Str) (i : ℕ) (d : Str)
    (hi : i < l.length)
    (hreach : (resolve_folders drive c (l.take i)).1 = some d)
    (hmiss : folder_query drive d (l.getD i []) = []) :
    (resolve_folders drive c l).1 = none ∧
      (resolve_folders drive c l).2.length = i + 1 := by
  induction l generalizing c i with
  | nil => simp at hi
  | cons part rest ih =>
    cases i with
    | zero =>
      simp only [List.take_zero, resolve_folders] at hreach
      obtain rfl : c = d := Option.some.inj hreach
      simp only [List.getD_cons_zero] at hmiss
      rw [resolve_folders, hmiss]
      simp
    | succ j =>
      simp only [List.take_succ_cons, resolve_folders] at hreach
      rw [resolve_folders]
      cases hq : folder_query drive c part with
      | nil => rw [hq] at hreach; simp [resolve_folders] at hreach
      | cons f fs =>
        rw [hq] at hreach
        simp only at hreach
        have := ih f.id j (by simpa using hi) hreach
          (by simpa using hmiss)
        simp [this.1, this.2]

theorem search_eq_of_none (drive : List DriveFile) (p root : Str)
    (qs : List Query)
    (h : resolve_folders drive root ((splitSlash p).dropLast) = (none, qs)) :
    search_image_in_drive drive p root = ([], qs) := by
  unfold search_image_in_drive
  simp only [h]

theorem search_eq_of_some (drive : List DriveFile) (p root cur : Str)
    (qs : List Query)
    (h : resolve_folders drive root ((splitSlash p).dropLast) = (some cur, qs)) :
    search_image_in_drive drive p root =
      (image_query drive cur ((splitSlash p).getLastD []),
        qs ++ [Query.terminal cur ((splitSlash p).getLastD [])]) := by
  unfold search_image_in_drive
  simp only [h]

/-- Claim C2: for every drive store, root id and path, the resolver
issues at most one folder query per non-final path segment and at most
one terminal query; and whenever the folder chain reaches a segment
whose folder query has zero matches, the result is the empty list, the
queries stop at that segment (i plus one queries in total), and no
terminal query is ever issued. -/
theorem search_query_bound (drive : List DriveFile) (image_path : Str)
    (root : Str) :
    ((search_image_in_drive drive image_path root).2.countP Query.isFolderQ ≤
        ((splitSlash image_path).dropLast).length ∧
      (search_image_in_drive drive image_path root).2.countP Query.isTerminalQ ≤ 1) ∧
    ∀ i d, i < ((splitSlash image_path).dropLast).length →
      (resolve_folders drive root (((splitSlash image_path).dropLast).take i)).1 =
        some d →
      folder_query drive d (((splitSlash image_path).dropLast).getD i []) = [] →
      (search_image_in_drive drive image_path root).1 = [] ∧
        (search_image_in_drive drive image_path root).2.length = i + 1 ∧
        (search_image_in_drive drive image_path root).2.countP Query.isTerminalQ = 0 := by
  obtain ⟨hlen, hfold⟩ :=
    resolve_folders_queries drive root ((splitSlash image_path).dropLast)
  have hterm0 : ∀ qs : List Query, (∀ q ∈ qs, q.isFolderQ = true) →
      qs.countP Query.isTerminalQ = 0 := by
    intro qs hq
    rw [List.countP_eq_zero]
    intro q hqm
    have := hq q hqm
    cases q with
    | folder p n => simp [Query.isTerminalQ]
    | terminal p n => simp [Query.isFolderQ] at this
  rcases hr : resolve_folders drive root ((splitSlash image_path).dropLast)
    with ⟨o, qs⟩
  rw [hr] at hlen hfold
  simp only at hlen hfold
  cases o with
  | none =>
    rw [search_eq_of_none drive image_path root qs hr]
    simp only
    refine ⟨⟨?_, ?_⟩, ?_⟩
    · exact le_trans (List.countP_le_length _) hlen
    · rw [hterm0 qs hfold]
      omega
    · intro i d hi hreach hmiss
      obtain ⟨hnone, hcount⟩ :=
        resolve_folders_fail_fast drive _ root i d hi hreach hmiss
      rw [hr] at hcount
      simp only at hcount
      refine ⟨?_, hcount, hterm0 qs hfold⟩
      trivial
  | some cur =>
    rw [search_eq_of_some drive image_path root cur qs hr]
    simp only
    refine ⟨⟨?_, ?_⟩, ?_⟩
    · rw [List.countP_append]
      have h2 : ([Query.terminal cur ((splitSlash image_path).getLastD [])].countP
          Query.isFolderQ) = 0 := by
        simp [List.countP_cons, Query.isFolderQ]
      rw [h2]
      have h1 : qs.countP Query.isFolderQ ≤ qs.length :=
        List.countP_le_length _
      omega
    · rw [List.countP_append, hterm0 qs hfold]
      simp [List.countP_cons, Query.isTerminalQ]
    · intro i d hi hreach hmiss
      obtain ⟨hnone, hcount⟩ :=
        resolve_folders_fail_fast drive _ root i d hi hreach hmiss
      rw [hr] at hnone
      simp at hnone

/-- Witness for search_query_bound: on the empty drive store with path
a/b.jpg, the first folder query misses, resolution returns the empty
list after exactly one query, and no terminal query is issued. -/
theorem search_query_bound_witness :
    (search_image_in_drive [] "a/b.jpg".data "r".data).1 = [] ∧
      (search_image_in_drive [] "a/b.jpg".data "r".data).2.length = 0 + 1 ∧
      (search_image_in_drive [] "a/b.jpg".data "r".data).2.countP
        Query.isTerminalQ = 0 :=
  (search_query_bound [] "a/b.jpg".data "r".data).2 0 "r".data
    (by decide) (by decide) (by decide)

/-! ### First-match and terminal-query behavior (claim C6) -/

/-- Claim C6: when a non-final segment has more than one matching
folder the walk continues from the first match without error; when the
folder chain succeeds, the overall result is exactly the terminal
image query, whose matches are precisely the children of the final
folder of image mime kind whose name contains the final segment as a
substring, all of them returned. -/
theorem search_first_match_and_terminal :
    (∀ (drive : List DriveFile) (c part : Str) (l : List Str)
        (f g : DriveFile) (fs : List DriveFile),
      folder_query drive c part = f :: g :: fs →
      resolve_folders drive c (part :: l) =
        ((resolve_folders drive f.id l).1,
          Query.folder c part :: (resolve_folders drive f.id l).2)) ∧
    (∀ (drive : List DriveFile) (p root cur : Str) (qs : List Query),
      resolve_folders drive root ((splitSlash p).dropLast) = (some cur, qs) →
      (search_image_in_drive drive p root).1 =
        image_query drive cur ((splitSlash p).getLastD [])) ∧
    (∀ (drive : List DriveFile) (parent n : Str) (x : DriveFile),
      x ∈ image_query drive parent n ↔
        x ∈ drive ∧ parent ∈ x.parents ∧ n <:+: x.name ∧
          imageMimeFragment <:+: x.mimeType) := by
  refine ⟨?_, ?_, ?_⟩
  · intro drive c part l f g fs hq
    rw [resolve_folders, hq]
  · intro drive p root cur qs h
    rw [search_eq_of_some drive p root cur qs h]
  · intro drive parent n x
    simp [image_query, List.mem_filter, decide_eq_true_eq, and_assoc]

/-- A small concrete drive store: two folders both named a under the
root r, and one image file under the first of them. -/
def sampleDrive : List DriveFile :=
  [⟨"f1".data, "a".data, folderMimeType, ["r".data]⟩,
   ⟨"f2".data, "a".data, folderMimeType, ["r".data]⟩,
   ⟨"i1".data, "cat.jpg".data, "image/jpeg".data, ["f1".data]⟩]

/-- Witness for search_first_match_and_terminal: in sampleDrive the
segment a has two folder matches and the walk continues from the
first, and for path a/cat the terminal query is returned. -/
theorem search_first_match_and_terminal_witness :
    resolve_folders sampleDrive "r".data ("a".data :: []) =
      ((resolve_folders sampleDrive "f1".data []).1,
        Query.folder "r".data "a".data ::
          (resolve_folders sampleDrive "f1".data []).2) ∧
    (search_image_in_drive sampleDrive "a/cat".data "r".data).1 =
      image_query sampleDrive "f1".data
        ((splitSlash "a/cat".data).getLastD []) := by
  constructor
  · exact search_first_match_and_terminal.1 sampleDrive "r".data "a".data []
      ⟨"f1".data, "a".data, folderMimeType, ["r".data]⟩
      ⟨"f2".data, "a".data, folderMimeType, ["r".data]⟩ [] (by decide)
  · exact search_first_match_and_terminal.2.1 sampleDrive "a/cat".data
      "r".data "f1".data [Query.folder "r".data "a".data] (by decide)

/-! ## Batch synchronizer: bulk_update_image_descriptions (src/main.py, lines 160-228) -/

/-- Embedding of the Python string method replace with an empty
replacement, as used in image_path.replace(local_folder_name + slash,
empty string): delete every occurrence of the pattern, scanning left
to right, non-overlapping, never rescanning emitted output. -/
def strReplaceEmpty (pat : List Char) : List Char → List Char
  | [] => []
  | c :: r =>
    if h : pat ≠ [] ∧ pat.isPrefixOf (c :: r) = true then
      strReplaceEmpty pat (List.drop pat.length (c :: r))
    else
      c :: strReplaceEmpty pat r
termination_by l => l.length
decreasing_by
  · have hlen : 0 < pat.length := List.length_pos.mpr h.1
    simp only [List.length_drop, List.length_cons]
    omega
  · simp

/-- One queued update operation: a remote file id paired with the new
description submitted for it. -/
structure BatchItem where
  fileId : Str
  description : Str
deriving DecidableEq

/-- The oracles one run of the synchronizer depends on: the remote
store contents, the enumerated local image paths, the tag lists that
the metadata tool reports for each path, and the configured root
folder id. -/
structure Env where
  drive : List DriveFile
  imagePaths : List Str
  tagsOf : Str → List Str
  rootId : Str

/-- Instrumented record of the processing of one local image: the
relative path handed to remote resolution, every tag sequence passed
to the description builder, the remote queries issued, and the batch
items enqueued. -/
structure ImageReport where
  rel : Str
  builderArgs : List (List Str)
  queries : List Query
  items : List BatchItem
deriving DecidableEq

/-- The per-image body of the loop in bulk_update_image_descriptions:
extract the tags, strip the local folder name from the path, and if
the tag list is nonempty build the description, resolve the remote
counterpart and enqueue one batch item per matched file; on an empty
tag list do nothing for this image. -/
def process_image (env : Env) (local_folder_name : Str) (image_path : Str) :
    ImageReport :=
  let image_tags := env.tagsOf image_path
  let rel := strReplaceEmpty (local_folder_name ++ ['/']) image_path
  match image_tags with
  | [] => ⟨rel, [], [], []⟩
  | t :: ts =>
    let new_description := create_description_from_tags (t :: ts)
    let res := search_image_in_drive env.drive rel env.rootId
    ⟨rel, [t :: ts], res.2,
      res.1.map (fun f => ⟨f.id, new_description⟩)⟩

/-- Observable outcome of one run of bulk_update_image_descriptions:
whether a batch request object was created, the builder invocations,
the remote queries, the enqueued batch items, and whether the batch
was executed. -/
structure RunResult where
  batchCreated : Bool
  builderArgs : List (List Str)
  queries : List Query
  batchItems : List BatchItem
  executed : Bool
deriving DecidableEq

/-- Embedding of bulk_update_image_descriptions: if the enumeration is
empty, report the failure and return before creating the batch;
otherwise create the batch, process every image in enumeration order,
and execute the accumulated batch once at the end. -/
def bulk_update_image_descriptions (env : Env) (local_folder_name : Str) :
    RunResult :=
  match env.imagePaths with
  | [] => ⟨false, [], [], [], false⟩
  | p :: ps =>
    let reports := (p :: ps).map (process_image env local_folder_name)
    ⟨true, (reports.map ImageReport.builderArgs).flatten,
      (reports.map ImageReport.queries).flatten,
      (reports.map ImageReport.items).flatten, true⟩

theorem strReplaceEmpty_cons (pat : List Char) (c : Char) (r : List Char) :
    strReplaceEmpty pat (c :: r) =
      if h : pat ≠ [] ∧ pat.isPrefixOf (c :: r) = true then
        strReplaceEmpty pat (List.drop pat.length (c :: r))
      else c :: strReplaceEmpty pat r := by
  rw [strReplaceEmpty.eq_def]

theorem strReplaceEmpty_del (pat : List Char) (hne : pat ≠ [])
    (v : List Char) :
    strReplaceEmpty pat (pat ++ v) = strReplaceEmpty pat v := by
  cases pat with
  | nil => exact absurd rfl hne
  | cons c r =>
    rw [List.cons_append, strReplaceEmpty_cons]
    rw [dif_pos ⟨by simp, by
      rw [List.isPrefixOf_iff_prefix]
      exact ⟨v, rfl⟩⟩]
    have hdrop : List.drop (c :: r).length (c :: (r ++ v)) = v := by
      rw [← List.cons_append]
      exact List.drop_left _ _
    rw [hdrop]

theorem bulk_eq_of_ne (env : Env) (lfn : Str) (h : env.imagePaths ≠ []) :
    bulk_update_image_descriptions env lfn =
      ⟨true,
        (env.imagePaths.map
          (fun r => (process_image env lfn r).builderArgs)).flatten,
        (env.imagePaths.map
          (fun r => (process_image env lfn r).queries)).flatten,
        (env.imagePaths.map
          (fun r => (process_image env lfn r).items)).flatten,
        true⟩ := by
  unfold bulk_update_image_descriptions
  cases hp : env.imagePaths with
  | nil => exact absurd hp h
  | cons q qs =>
    simp [List.map_map, Function.comp_def]

/-! ### The gating invariant on empty tag lists (claim C4) -/

/-- Claim C4: a local image whose extracted tag list is empty never
reaches the description builder, produces no batch item and no remote
query, the run continues with the remaining images, and consequently
no run ever passes an empty tag sequence to the builder. -/
theorem no_tags_soft_skip :
    (∀ (env : Env) (lfn p : Str), env.tagsOf p = [] →
      (process_image env lfn p).builderArgs = [] ∧
        (process_image env lfn p).items = [] ∧
        (process_image env lfn p).queries = []) ∧
    (∀ (env : Env) (lfn p : Str) (l1 l2 : List Str),
      env.imagePaths = l1 ++ p :: l2 → env.tagsOf p = [] →
      (bulk_update_image_descriptions env lfn).batchItems =
        (l1.map (fun q => (process_image env lfn q).items)).flatten ++
          (l2.map (fun q => (process_image env lfn q).items)).flatten) ∧
    (∀ (env : Env) (lfn : Str) (args : List Str),
      args ∈ (bulk_update_image_descriptions env lfn).builderArgs →
      args ≠ []) := by
  have hskip : ∀ (env : Env) (lfn p : Str), env.tagsOf p = [] →
      process_image env lfn p =
        ⟨strReplaceEmpty (lfn ++ ['/']) p, [], [], []⟩ := by
    intro env lfn p h
    unfold process_image
    rw [h]
  refine ⟨?_, ?_, ?_⟩
  · intro env lfn p h
    rw [hskip env lfn p h]
    exact ⟨rfl, rfl, rfl⟩
  · intro env lfn p l1 l2 hpaths h
    rw [bulk_eq_of_ne env lfn (by rw [hpaths]; simp)]
    rw [hpaths]
    simp only [List.map_append, List.map_cons, List.flatten_append,
      List.flatten_cons]
    rw [hskip env lfn p h]
    simp
  · intro env lfn args hmem
    by_cases hp : env.imagePaths = []
    · unfold bulk_update_image_descriptions at hmem
      rw [hp] at hmem
      simp at hmem
    · rw [bulk_eq_of_ne env lfn hp] at hmem
      simp only [List.mem_flatten, List.mem_map] at hmem
      obtain ⟨largs, ⟨r, hrmem, rfl⟩, hargs⟩ := hmem
      unfold process_image at hargs
      cases ht : env.tagsOf r with
      | nil => rw [ht] at hargs; simp at hargs
      | cons t ts =>
        rw [ht] at hargs
        simp only [List.mem_singleton] at hargs
        subst hargs
        simp

/-- Witness for no_tags_soft_skip: an environment with one image whose
tag list is empty produces no builder call, no batch item and no
query, and the run yields no batch items at all. -/
theorem no_tags_soft_skip_witness :
    (process_image ⟨[], ["x.jpg".data], fun _ => [], []⟩ "images".data
        "x.jpg".data).builderArgs = [] ∧
      (process_image ⟨[], ["x.jpg".data], fun _ => [], []⟩ "images".data
        "x.jpg".data).items = [] ∧
      (bulk_update_image_descriptions ⟨[], ["x.jpg".data], fun _ => [], []⟩
        "images".data).batchItems = [] := by
  have h1 := no_tags_soft_skip.1 ⟨[], ["x.jpg".data], fun _ => [], []⟩
    "images".data "x.jpg".data rfl
  have h2 := no_tags_soft_skip.2.1 ⟨[], ["x.jpg".data], fun _ => [], []⟩
    "images".data "x.jpg".data [] [] rfl rfl
  refine ⟨h1.1, h1.2.1, ?_⟩
  simpa using h2

/-! ### The relative-path computation (claim C9) -/

/-- Claim C9: the relative path handed to remote resolution is the
image path with every occurrence of the local folder name followed by
a slash deleted, not only a leading root prefix: a leading occurrence
is deleted and deletion then continues on the remainder, and an
interior occurrence of images-slash after a folder segment a-slash is
deleted as well. -/
theorem relative_path_deletes_all_occurrences :
    (∀ (env : Env) (lfn p : Str),
      (process_image env lfn p).rel = strReplaceEmpty (lfn ++ ['/']) p) ∧
    (∀ v : List Char,
      strReplaceEmpty "images/".data ("images/".data ++ v) =
        strReplaceEmpty "images/".data v) ∧
    (∀ v : List Char,
      strReplaceEmpty "images/".data ("a/".data ++ "images/".data ++ v) =
        "a/".data ++ strReplaceEmpty "images/".data v) := by
  have hlead : ∀ v : List Char,
      strReplaceEmpty "images/".data ("images/".data ++ v) =
        strReplaceEmpty "images/".data v :=
    fun v => strReplaceEmpty_del "images/".data (by decide) v
  refine ⟨?_, hlead, ?_⟩
  · intro env lfn p
    unfold process_image
    cases env.tagsOf p <;> rfl
  · intro v
    have h1 : strReplaceEmpty "images/".data ('/' :: ("images/".data ++ v)) =
        '/' :: strReplaceEmpty "images/".data ("images/".data ++ v) := by
      rw [strReplaceEmpty_cons, dif_neg]
      intro hcon
      have := hcon.2
      simp [List.isPrefixOf] at this
    have h2 : strReplaceEmpty "images/".data
          ('a' :: ('/' :: ("images/".data ++ v))) =
        'a' :: strReplaceEmpty "images/".data ('/' :: ("images/".data ++ v)) := by
      rw [strReplaceEmpty_cons, dif_neg]
      intro hcon
      have := hcon.2
      simp [List.isPrefixOf] at this
    show strReplaceEmpty "images/".data
        ('a' :: ('/' :: ("images/".data ++ v))) =
      'a' :: ('/' :: strReplaceEmpty "images/".data v)
    rw [h2, h1, hlead v]

/-! ### Empty enumeration performs nothing (claim C10) -/

/-- Claim C10: if directory enumeration yields zero image paths, the
run returns right after reporting the failure: no batch request object
is created, no builder call happens, no remote query is issued, no
batch item is enqueued and the batch is never executed. -/
theorem empty_enumeration_returns_early (env : Env) (lfn : Str)
    (h : env.imagePaths = []) :
    bulk_update_image_descriptions env lfn = ⟨false, [], [], [], false⟩ := by
  unfold bulk_update_image_descriptions
  rw [h]

/-- Witness for empty_enumeration_returns_early on a concrete
environment with no enumerated paths. -/
theorem empty_enumeration_returns_early_witness :
    bulk_update_image_descriptions ⟨[], [], fun _ => [], []⟩ "images".data =
      ⟨false, [], [], [], false⟩ :=
  empty_enumeration_returns_early ⟨[], [], fun _ => [], []⟩ "images".data rfl

/-! ## Batch execution outcomes: batch_callback (src/main.py, lines 145-157) -/

/-- Per-item outcome reported by the completion callback. -/
inductive SyncOutcome
  | failed (request_id : Str) (exception : Str)
  | updated (name : Option Str)
deriving DecidableEq

/-- Embedding of batch_callback: on an exception report the failure
with the request id, otherwise report success with the name field of
the response dictionary (response.get, an optional lookup). -/
def batch_callback (request_id : Str) (response : List (Str × Str))
    (exception : Option Str) : SyncOutcome :=
  match exception with
  | some e => SyncOutcome.failed request_id e
  | none => SyncOutcome.updated (List.lookup "name".data response)

/-- Modelled from the spec: the batched execution step (the
new_batch_http_request object of the Google API client library, whose
code is not part of this repository).  Per section 4.4 of the spec the
remote store processes each submitted item independently and invokes
the per-item completion callback exactly once per item; the responder
oracle supplies each item response dictionary and optional exception.
Request ids correlate one-to-one with items; the item file id stands
in for the id the library assigns. -/
def execute_batch (items : List BatchItem)
    (respond : BatchItem → List (Str × Str) × Option Str) : List SyncOutcome :=
  items.map (fun it => batch_callback it.fileId (respond it).1 (respond it).2)

/-- Claim C5: in every non-fatal run the number of SyncOutcomes (one
per completion-callback invocation) equals the number of batch items
submitted to the batch queue, both for an arbitrary item list and for
the items accumulated by bulk_update_image_descriptions. -/
theorem outcomes_match_batch_items :
    (∀ (items : List BatchItem)
        (respond : BatchItem → List (Str × Str) × Option Str),
      (execute_batch items respond).length = items.length) ∧
    (∀ (env : Env) (lfn : Str)
        (respond : BatchItem → List (Str × Str) × Option Str),
      (execute_batch (bulk_update_image_descriptions env lfn).batchItems
          respond).length =
        (bulk_update_image_descriptions env lfn).batchItems.length) := by
  have hlen : ∀ (items : List BatchItem)
      (respond : BatchItem → List (Str × Str) × Option Str),
      (execute_batch items respond).length = items.length := by
    intro items respond
    unfold execute_batch
    exact List.length_map _ _
  exact ⟨hlen, fun env lfn respond => hlen _ respond⟩

/-! ## Credential acquisition: src/google_api.py -/

/-- The client secrets file name constant. -/
def CLIENT_SECRETS_FILE : Str := "client-secrets-file.json".data

/-- The token file name constant. -/
def TOKEN_FILE : Str := "token.json".data

/-- OAuth2 credentials as far as the control flow inspects them. -/
structure Credentials where
  expired : Bool
  refreshToken : Bool
deriving DecidableEq

/-- Embedding of request_credentials: if the client secrets file
exists, run the installed-application flow (outcome supplied by the
flowCreds oracle) and return the resulting credentials; otherwise
print and exit the process with status 1, modelled as the error value
carrying the exit code. -/
def request_credentials (fileExists : Str → Bool) (flowCreds : Credentials) :
    Except Nat Credentials :=
  if fileExists CLIENT_SECRETS_FILE then Except.ok flowCreds
  else Except.error 1

/-- Embedding of get_credentials: if the token file exists load the
stored credentials (oracle), refreshing them when they are expired and
carry a refresh token; otherwise fall back to request_credentials. -/
def get_credentials (fileExists : Str → Bool) (stored : Option Credentials)
    (refresh : Credentials → Credentials) (flowCreds : Credentials) :
    Except Nat (Option Credentials) :=
  if fileExists TOKEN_FILE then
    match stored with
    | some c =>
      if c.expired && c.refreshToken then Except.ok (some (refresh c))
      else Except.ok (some c)
    | none => Except.ok none
  else (request_credentials fileExists flowCreds).map some

/-- Embedding of create_service: obtain credentials and build the
service object from them; the build step itself is external, so the
service is represented by the credentials it is built from. -/
def create_service (fileExists : Str → Bool) (stored : Option Credentials)
    (refresh : Credentials → Credentials) (flowCreds : Credentials) :
    Except Nat (Option Credentials) :=
  get_credentials fileExists stored refresh flowCreds

/-- Embedding of main: build the drive service, then run the bulk
update; a fatal exit during service construction aborts the run before
any outcome is produced. -/
def main_run (fileExists : Str → Bool) (stored : Option Credentials)
    (refresh : Credentials → Credentials) (flowCreds : Credentials)
    (env : Env) (lfn : Str) : Except Nat RunResult :=
  (create_service fileExists stored refresh flowCreds).map
    (fun _ => bulk_update_image_descriptions env lfn)

/-- Claim C8: when the token file is absent and the client secrets
file is absent as well (so new credentials are requested and cannot
be), the run aborts before any service is constructed: create_service
returns exit status 1, the whole run yields no result sequence, and
the exit status is non-zero. -/
theorem missing_secrets_aborts (fileExists : Str → Bool)
    (stored : Option Credentials) (refresh : Credentials → Credentials)
    (flowCreds : Credentials) (env : Env) (lfn : Str)
    (htoken : fileExists TOKEN_FILE = false)
    (hsecrets : fileExists CLIENT_SECRETS_FILE = false) :
    create_service fileExists stored refresh flowCreds = Except.error 1 ∧
      main_run fileExists stored refresh flowCreds env lfn = Except.error 1 ∧
      (∀ r, main_run fileExists stored refresh flowCreds env lfn ≠
        Except.ok r) ∧ (1 : Nat) ≠ 0 := by
  have hcs : create_service fileExists stored refresh flowCreds =
      Except.error 1 := by
    unfold create_service get_credentials request_credentials
    rw [htoken, hsecrets]
    rfl
  refine ⟨hcs, ?_, ?_, by decide⟩
  · unfold main_run
    rw [hcs]
    rfl
  · intro r hr
    unfold main_run at hr
    rw [hcs] at hr
    simp [Except.map] at hr

/-- Witness for missing_secrets_aborts: a filesystem oracle on which
no file exists. -/
theorem missing_secrets_aborts_witness :
    create_service (fun _ => false) none id ⟨false, false⟩ =
        Except.error 1 ∧
      main_run (fun _ => false) none id ⟨false, false⟩
          ⟨[], [], fun _ => [], []⟩ "images".data = Except.error 1 ∧
      (∀ r, main_run (fun _ => false) none id ⟨false, false⟩
          ⟨[], [], fun _ => [], []⟩ "images".data ≠ Except.ok r) ∧
      (1 : Nat) ≠ 0 :=
  missing_secrets_aborts (fun _ => false) none id ⟨false, false⟩
    ⟨[], [], fun _ => [], []⟩ "images".data rfl rfl

end ImageMetadataSync
